import Mathlib

/-!
Shallow embedding of `kiloex-airdrop-checker` (`src/main.rs`).

Amounts (`f64` in the source) are modelled as rationals `ℚ`; the spec
explicitly disclaims strict floating-point reproducibility, requiring only
commutative/associative summation, which `ℚ` provides. I/O effects are
modelled by an environment: the contents of the two input files and, for
every (address, proxy, attempt index), the outcome that one HTTP attempt
would produce after transport and JSON parsing. Console output, attempt
counts, retry notices and the per-attempt proxies are collected as data so
theorems can speak about them.
-/

namespace Kiloex

/-- Terminal failure cause of one HTTP attempt (`reqwest::Error`), opaque. -/
abbrev Err := String

/-- An I/O error from opening/reading a file (`std::io::Error`), opaque. -/
abbrev IOErr := String

/-- One record of the upstream JSON `data` array (struct `Data`). -/
structure Data where
  amount : ℚ
deriving Repr, DecidableEq

/-- The upstream JSON body (struct `Response`): a top-level `data` array. -/
structure Response where
  data : List Data
deriving Repr, DecidableEq

/-- `get_airdrop_amount` after the transport layer: the argument is the
result of the HTTP GET plus JSON deserialization for this attempt (an error
covers connection/proxy/status/parse failures, all surfaced via `?` in the
source). On a structurally valid body, an empty `data` array returns `0.0`
and otherwise the amounts are summed (lines 62-68 of `main.rs`). -/
def get_airdrop_amount (resp : Except Err Response) : Except Err ℚ :=
  match resp with
  | .error e => .error e
  | .ok res =>
    if res.data.isEmpty then .ok 0
    else .ok ((res.data.map Data.amount).sum)

/-- Everything one run of `get_airdrop_amount_with_retry` produces:
the returned value, how many fetch attempts were made, the retry notices
written to stderr (attempt index as printed, address, error), the sleep
durations in seconds between attempts, and the (attempt index, proxy)
of every call made to `get_airdrop_amount`. -/
structure RetryResult where
  result : Except Err ℚ
  attempts : ℕ
  retryLog : List (ℕ × String × Err)
  delays : List ℕ
  calls : List (ℕ × Option String)
deriving Repr

/-- The `loop` of `get_airdrop_amount_with_retry`, entered with the mutable
counter `retries`. `env i` is the post-transport outcome of attempt `i` for
this address/proxy pair. On success the amount is returned immediately; on
failure with `retries < max_retries` a retry notice `Retry {retries+1}/...`
is logged, the counter is incremented, the task sleeps 1 second and loops;
otherwise the last error is returned. Terminates because `max_retries -
retries` strictly decreases, exactly the source loop's termination
argument. -/
def get_airdrop_amount_with_retry_go (address : String) (max_retries : ℕ)
    (proxy : Option String) (env : ℕ → Except Err Response) (retries : ℕ) :
    RetryResult :=
  match get_airdrop_amount (env retries) with
  | .ok amount =>
    { result := .ok amount, attempts := retries + 1,
      retryLog := [], delays := [], calls := [(retries, proxy)] }
  | .error e =>
    if _h : retries < max_retries then
      let rest := get_airdrop_amount_with_retry_go address max_retries proxy
        env (retries + 1)
      { result := rest.result, attempts := rest.attempts,
        retryLog := (retries + 1, address, e) :: rest.retryLog,
        delays := 1 :: rest.delays,
        calls := (retries, proxy) :: rest.calls }
    else
      { result := .error e, attempts := retries + 1,
        retryLog := [], delays := [], calls := [(retries, proxy)] }
termination_by max_retries - retries

/-- `get_airdrop_amount_with_retry`: enter the loop with `retries = 0`. -/
def get_airdrop_amount_with_retry (address : String) (max_retries : ℕ)
    (proxy : Option String) (env : ℕ → Except Err Response) : RetryResult :=
  get_airdrop_amount_with_retry_go address max_retries proxy env 0

/-- Rust's `str::trim`: remove whitespace characters from both ends.
(Defined character-wise over the string's data so it is kernel-computable;
Lean's built-in `String.trim` recurses on byte positions, which concrete
witnesses could not evaluate.) -/
def strTrim (s : String) : String :=
  ⟨((s.data.dropWhile Char.isWhitespace).reverse.dropWhile
    Char.isWhitespace).reverse⟩

/-- `read_lines`: the argument is the file — `.error` if it cannot be
opened or a line cannot be read, otherwise its raw lines. Each line is
trimmed and pushed iff non-empty. -/
def read_lines (file : Except IOErr (List String)) :
    Except IOErr (List String) :=
  match file with
  | .error e => .error e
  | .ok rawLines =>
    .ok (rawLines.foldl
      (fun contents line =>
        let trimmed := strTrim line
        if !trimmed.isEmpty then contents ++ [trimmed] else contents)
      [])

/-- State of Rust's `std::iter::Cycle` over a list: the original list and
the not-yet-yielded suffix of the current pass. -/
structure CycleIter where
  orig : List String
  rest : List String
deriving Repr, DecidableEq

/-- `proxies.into_iter().cycle()`. -/
def cycle (l : List String) : CycleIter := ⟨l, l⟩

/-- `Cycle::next`: yield from the current pass; when it is exhausted,
restart from a clone of the original iterator (which yields `None` forever
iff the original list is empty). -/
def CycleIter.next (c : CycleIter) : Option String × CycleIter :=
  match c.rest with
  | x :: xs => (some x, { c with rest := xs })
  | [] =>
    match c.orig with
    | [] => (none, c)
    | x :: xs => (some x, { c with rest := xs })

/-- The per-address proxy assignments drawn by `main`'s dispatch loop:
for each address in input order, `proxy_iter.next()` is called once,
before that address's task starts. -/
def assignments (addresses : List String) (c : CycleIter) :
    List (String × Option String) :=
  match addresses with
  | [] => []
  | a :: restAddrs =>
    let (p, c') := c.next
    (a, p) :: assignments restAddrs c'

/-- The environment of one run: the two input files (`.error` = unreadable,
`.ok` = raw lines) and, for every address, proxy and attempt index, the
post-transport outcome of that HTTP attempt. -/
structure Env where
  addressesFile : Except IOErr (List String)
  proxiesFile : Except IOErr (List String)
  fetch : String → Option String → ℕ → Except Err Response

/-- One line printed for an address: the stdout success line
`Address <addr>: <amount> KILO` or the stderr failure line
`Failed after retries for address <addr>: <error>`. -/
inductive OutputLine where
  | success (address : String) (amount : ℚ)
  | failure (address : String) (error : Err)
deriving Repr, DecidableEq

/-- The address an output line is about. -/
def OutputLine.lineAddress : OutputLine → String
  | .success a _ => a
  | .failure a _ => a

/-- Everything one address's spawned task produces: its console line, the
`Some(amount)`/`None` it returns to `join_all`, the full retry trace, and
the address/proxy pair it owned. -/
structure TaskResult where
  line : OutputLine
  value : Option ℚ
  retry : RetryResult
  address : String
  proxy : Option String
deriving Repr

/-- Observable behaviour of `main`: the per-address lines (in the order the
model prints them), stderr diagnostics, the final total line (`none` if
never printed), every `get_airdrop_amount_with_retry` call made (address,
proxy, attempts used), and the process exit code. -/
structure Output where
  perAddress : List OutputLine
  diagnostics : List String
  totalLine : Option ℚ
  fetchCalls : List (String × Option String × ℕ)
  exitCode : ℕ
deriving Repr

/-- `MAX_RETRIES` from `main`. -/
def MAX_RETRIES : ℕ := 10

/-- The async block `main` spawns for one (address, proxy) pair: run the
retry wrapper; on `Ok` print the success line and yield `Some(amount)`,
on `Err` print the failure line and yield `None`. -/
def runTask (env : Env) (max_retries : ℕ) (ap : String × Option String) :
    TaskResult :=
  let r := get_airdrop_amount_with_retry ap.1 max_retries ap.2
    (env.fetch ap.1 ap.2)
  match r.result with
  | .ok amount =>
    { line := .success ap.1 amount, value := some amount, retry := r,
      address := ap.1, proxy := ap.2 }
  | .error e =>
    { line := .failure ap.1 e, value := none, retry := r,
      address := ap.1, proxy := ap.2 }

/-- The proxies `main` ends up with: a successfully read, non-empty list is
kept; an unreadable file or an empty list degrades to `Vec::new()`. -/
def loadProxies (env : Env) : List String :=
  match read_lines env.proxiesFile with
  | .ok proxies => if !proxies.isEmpty then proxies else []
  | .error _ => []

/-- The vector `join_all` returns: one `TaskResult` per address, in input
order (`join_all` preserves the order of its input futures regardless of
completion order). -/
def runBatch (env : Env) (addresses : List String) : List TaskResult :=
  (assignments addresses (cycle (loadProxies env))).map
    (runTask env MAX_RETRIES)

/-- `results.into_iter().filter_map(|x| x).sum()`. -/
def totalOf (results : List TaskResult) : ℚ :=
  (results.filterMap TaskResult.value).sum

/-- A retry notice as printed to stderr. -/
def retryNotice (entry : ℕ × String × Err) : String :=
  "Retry " ++ toString entry.1 ++ "/" ++ toString MAX_RETRIES ++
    " for address " ++ entry.2.1 ++ ": " ++ entry.2.2

/-- `main`. Reading the address file is fatal-but-exit-0: print the
diagnostic and return `Ok(())`. Otherwise load proxies (degrading),
assign proxies round-robin, run one task per address, sum the successes
and print the total. Both paths return `Ok(())`, i.e. exit code 0. -/
def main (env : Env) : Output :=
  match read_lines env.addressesFile with
  | .error e =>
    { perAddress := [],
      diagnostics := ["Error reading addresses file: " ++ e],
      totalLine := none, fetchCalls := [], exitCode := 0 }
  | .ok addresses =>
    let results := runBatch env addresses
    { perAddress := results.map TaskResult.line,
      diagnostics := results.flatMap (fun r => r.retry.retryLog.map retryNotice),
      totalLine := some (totalOf results),
      fetchCalls := results.map (fun r => (r.address, r.proxy, r.retry.attempts)),
      exitCode := 0 }

/-- The final outcome of an address's task, as an optional amount: the
amount iff the retry sequence ended in success, nothing on a final error.
Spec-side view used to state that the total sums exactly the successes. -/
def finalAmount (t : TaskResult) : Option ℚ :=
  match t.retry.result with
  | .ok a => some a
  | .error _ => none

/-- `main` refined with a completion schedule: `order` lists the task
indices in the order the concurrently running tasks happen to finish, which
is the order their console lines appear. The gather (`join_all`) still
returns results in input order, so the total is computed exactly as in
`main`. -/
def mainSched (env : Env) (order : List ℕ) : Output :=
  match read_lines env.addressesFile with
  | .error e =>
    { perAddress := [],
      diagnostics := ["Error reading addresses file: " ++ e],
      totalLine := none, fetchCalls := [], exitCode := 0 }
  | .ok addresses =>
    let results := runBatch env addresses
    { perAddress := order.filterMap (fun i => (results[i]?).map TaskResult.line),
      diagnostics := results.flatMap (fun r => r.retry.retryLog.map retryNotice),
      totalLine := some (totalOf results),
      fetchCalls := results.map (fun r => (r.address, r.proxy, r.retry.attempts)),
      exitCode := 0 }

/-- Concrete upstream for witnesses: attempt 0 fails, every later attempt
returns a single record of amount 5. -/
def fetchFailThenOk : ℕ → Except Err Response :=
  fun i => if i = 0 then .error "connection reset" else .ok ⟨[⟨5⟩]⟩

/-- Concrete upstream for witnesses: every attempt fails. -/
def fetchAllFail : ℕ → Except Err Response :=
  fun _ => .error "connection refused"

/-- Concrete run environment for witnesses: two addresses, an unreadable
proxy file, one address always succeeds with amount 3, the other always
fails. -/
def envMixed : Env :=
  { addressesFile := .ok ["good", "bad"],
    proxiesFile := .error "no proxies file",
    fetch := fun address _ _ =>
      if address = "good" then .ok ⟨[⟨3⟩]⟩ else .error "http 500" }

/-- Concrete run environment for witnesses: three addresses sharing two
proxies round-robin, every fetch succeeding with amount 2. -/
def envTwoProxies : Env :=
  { addressesFile := .ok ["a1", "a2", "a3"],
    proxiesFile := .ok ["p1", "p2"],
    fetch := fun _ _ _ => .ok ⟨[⟨2⟩]⟩ }

/-- Concrete run environment for witnesses: the address file is missing. -/
def envNoAddrFile : Env :=
  { addressesFile := .error "No such file or directory (os error 2)",
    proxiesFile := .ok [],
    fetch := fun _ _ _ => .error "unreachable" }

/-- Concrete run environment for witnesses: the address file is readable
but contains only blank lines. -/
def envBlankAddrFile : Env :=
  { addressesFile := .ok ["", "   "],
    proxiesFile := .ok ["p1"],
    fetch := fun _ _ _ => .ok ⟨[⟨2⟩]⟩ }



theorem retry_go_ok (address : String) (max_retries : ℕ) (proxy : Option String)
    (env : ℕ → Except Err Response) (retries : ℕ) (a : ℚ)
    (h : get_airdrop_amount (env retries) = .ok a) :
    get_airdrop_amount_with_retry_go address max_retries proxy env retries =
      { result := .ok a, attempts := retries + 1,
        retryLog := [], delays := [], calls := [(retries, proxy)] } := by
  rw [get_airdrop_amount_with_retry_go, h]

theorem retry_go_err_lt (address : String) (max_retries : ℕ) (proxy : Option String)
    (env : ℕ → Except Err Response) (retries : ℕ) (e : Err)
    (h : get_airdrop_amount (env retries) = .error e) (hlt : retries < max_retries) :
    get_airdrop_amount_with_retry_go address max_retries proxy env retries =
      (let rest := get_airdrop_amount_with_retry_go address max_retries proxy env (retries + 1)
      { result := rest.result, attempts := rest.attempts,
        retryLog := (retries + 1, address, e) :: rest.retryLog,
        delays := 1 :: rest.delays,
        calls := (retries, proxy) :: rest.calls }) := by
  rw [get_airdrop_amount_with_retry_go, h]
  simp [hlt]

theorem retry_go_err_last (address : String) (max_retries : ℕ) (proxy : Option String)
    (env : ℕ → Except Err Response) (retries : ℕ) (e : Err)
    (h : get_airdrop_amount (env retries) = .error e) (hge : ¬ retries < max_retries) :
    get_airdrop_amount_with_retry_go address max_retries proxy env retries =
      { result := .error e, attempts := retries + 1,
        retryLog := [], delays := [], calls := [(retries, proxy)] } := by
  rw [get_airdrop_amount_with_retry_go, h]
  simp [hge]

theorem retry_go_first_success (address : String) (max_retries : ℕ)
    (proxy : Option String) (env : ℕ → Except Err Response) (a : ℚ) :
    ∀ (k r : ℕ), r + k ≤ max_retries →
    (∀ i, i < k → ∃ e, get_airdrop_amount (env (r + i)) = .error e) →
    get_airdrop_amount (env (r + k)) = .ok a →
    (get_airdrop_amount_with_retry_go address max_retries proxy env r).result = .ok a ∧
    (get_airdrop_amount_with_retry_go address max_retries proxy env r).attempts = r + k + 1 ∧
    (get_airdrop_amount_with_retry_go address max_retries proxy env r).retryLog.length = k ∧
    (get_airdrop_amount_with_retry_go address max_retries proxy env r).delays = List.replicate k 1 := by
  intro k
  induction k with
  | zero =>
    intro r _ _ hok
    rw [retry_go_ok address max_retries proxy env r a (by simpa using hok)]
    simp
  | succ k ih =>
    intro r hle hfail hok
    obtain ⟨e, he⟩ := hfail 0 (Nat.succ_pos k)
    rw [Nat.add_zero] at he
    rw [retry_go_err_lt address max_retries proxy env r e he (by omega)]
    have hfail' : ∀ i, i < k → ∃ e, get_airdrop_amount (env (r + 1 + i)) = .error e := by
      intro i hi
      have := hfail (i + 1) (by omega)
      simpa [Nat.add_assoc, Nat.add_comm 1 i] using this
    have hok' : get_airdrop_amount (env (r + 1 + k)) = .ok a := by
      have harith : r + 1 + k = r + (k + 1) := by omega
      rw [harith]; exact hok
    obtain ⟨h1, h2, h3, h4⟩ := ih (r + 1) (by omega) hfail' hok'
    refine ⟨h1, by simp only []; omega, by simpa using h3, ?_⟩
    simp only [List.replicate_succ]
    simpa using h4

theorem retry_go_all_fail (address : String) (max_retries : ℕ)
    (proxy : Option String) (env : ℕ → Except Err Response) (errAt : ℕ → Err)
    (herr : ∀ i, i ≤ max_retries → get_airdrop_amount (env i) = .error (errAt i)) :
    ∀ (n r : ℕ), max_retries - r = n → r ≤ max_retries →
    (get_airdrop_amount_with_retry_go address max_retries proxy env r).result =
      .error (errAt max_retries) ∧
    (get_airdrop_amount_with_retry_go address max_retries proxy env r).attempts =
      max_retries + 1 ∧
    (get_airdrop_amount_with_retry_go address max_retries proxy env r).retryLog.length =
      max_retries - r ∧
    (get_airdrop_amount_with_retry_go address max_retries proxy env r).delays =
      List.replicate (max_retries - r) 1 := by
  intro n
  induction n with
  | zero =>
    intro r hn hr
    rw [retry_go_err_last address max_retries proxy env r (errAt r)
      (herr r hr) (by omega)]
    have hr' : r = max_retries := by omega
    simp [hr']
  | succ n ih =>
    intro r hn hr
    have hlt : r < max_retries := by omega
    rw [retry_go_err_lt address max_retries proxy env r (errAt r)
      (herr r (by omega)) hlt]
    obtain ⟨h1, h2, h3, h4⟩ := ih (r + 1) (by omega) (by omega)
    refine ⟨h1, h2, ?_, ?_⟩
    · simp only [List.length_cons]
      omega
    · have hrep : max_retries - r = (max_retries - (r + 1)) + 1 := by omega
      rw [hrep, List.replicate_succ]
      simpa using h4

theorem retry_go_attempts_le (address : String) (max_retries : ℕ)
    (proxy : Option String) (env : ℕ → Except Err Response) :
    ∀ (n r : ℕ), max_retries - r ≤ n → r ≤ max_retries →
    (get_airdrop_amount_with_retry_go address max_retries proxy env r).attempts ≤
      max_retries + 1 := by
  intro n
  induction n with
  | zero =>
    intro r hn hr
    cases hres : get_airdrop_amount (env r) with
    | ok a =>
      rw [retry_go_ok address max_retries proxy env r a hres]
      simp
      omega
    | error e =>
      rw [retry_go_err_last address max_retries proxy env r e hres (by omega)]
      simp
      omega
  | succ n ih =>
    intro r hn hr
    cases hres : get_airdrop_amount (env r) with
    | ok a =>
      rw [retry_go_ok address max_retries proxy env r a hres]
      simp
      omega
    | error e =>
      by_cases hlt : r < max_retries
      · rw [retry_go_err_lt address max_retries proxy env r e hres hlt]
        simpa using ih (r + 1) (by omega) (by omega)
      · rw [retry_go_err_last address max_retries proxy env r e hres hlt]
        simp
        omega

theorem retry_go_calls_proxy (address : String) (max_retries : ℕ)
    (proxy : Option String) (env : ℕ → Except Err Response) :
    ∀ (n r : ℕ), max_retries - r ≤ n →
    ∀ c ∈ (get_airdrop_amount_with_retry_go address max_retries proxy env r).calls,
      c.2 = proxy := by
  intro n
  induction n with
  | zero =>
    intro r hn c hc
    cases hres : get_airdrop_amount (env r) with
    | ok a =>
      rw [retry_go_ok address max_retries proxy env r a hres] at hc
      simp at hc
      simp [hc]
    | error e =>
      rw [retry_go_err_last address max_retries proxy env r e hres (by omega)] at hc
      simp at hc
      simp [hc]
  | succ n ih =>
    intro r hn c hc
    cases hres : get_airdrop_amount (env r) with
    | ok a =>
      rw [retry_go_ok address max_retries proxy env r a hres] at hc
      simp at hc
      simp [hc]
    | error e =>
      by_cases hlt : r < max_retries
      · rw [retry_go_err_lt address max_retries proxy env r e hres hlt] at hc
        simp at hc
        rcases hc with hc | hc
        · simp [hc]
        · exact ih (r + 1) (by omega) c hc
      · rw [retry_go_err_last address max_retries proxy env r e hres hlt] at hc
        simp at hc
        simp [hc]



theorem assignments_fst (addrs : List String) :
    ∀ c : CycleIter, (assignments addrs c).map Prod.fst = addrs := by
  induction addrs with
  | nil => intro c; rfl
  | cons a rest ih =>
    intro c
    simp [assignments, ih]

theorem assignments_length (addrs : List String) (c : CycleIter) :
    (assignments addrs c).length = addrs.length := by
  have := assignments_fst addrs c
  calc (assignments addrs c).length
      = ((assignments addrs c).map Prod.fst).length := (List.length_map _ _).symm
    _ = addrs.length := by rw [this]

theorem assignments_snd_nil (addrs : List String) :
    (assignments addrs ⟨[], []⟩).map Prod.snd =
      List.replicate addrs.length none := by
  induction addrs with
  | nil => rfl
  | cons a rest ih =>
    simp [assignments, CycleIter.next, List.replicate_succ, ih]

theorem assignments_snd (l : List String) (hl : l ≠ []) :
    ∀ (addrs : List String) (j : ℕ), j ≤ l.length →
    (assignments addrs ⟨l, l.drop j⟩).map Prod.snd =
      (List.range addrs.length).map (fun i => l[(j + i) % l.length]?) := by
  intro addrs
  induction addrs with
  | nil => intro j _; rfl
  | cons a rest ih =>
    intro j hj
    by_cases hjlt : j < l.length
    · rw [List.drop_eq_getElem_cons hjlt]
      have hnext : CycleIter.next ⟨l, l[j] :: l.drop (j + 1)⟩ =
          (some l[j], ⟨l, l.drop (j + 1)⟩) := rfl
      simp only [assignments, hnext, List.map_cons]
      rw [ih (j + 1) (by omega)]
      simp only [List.length_cons]
      rw [List.range_succ_eq_map, List.map_cons, List.map_map]
      congr 1
      · rw [Nat.add_zero, Nat.mod_eq_of_lt hjlt, List.getElem?_eq_getElem hjlt]
      · refine List.map_congr_left ?_
        intro i _
        simp only [Function.comp_apply, Nat.succ_eq_add_one]
        rw [show j + 1 + i = j + (i + 1) from by omega]
    · have hjeq : j = l.length := by omega
      have hdrop : l.drop j = [] := by
        rw [hjeq, List.drop_length]
      obtain ⟨x, xs, hxl⟩ : ∃ x xs, l = x :: xs := by
        cases l with
        | nil => exact absurd rfl hl
        | cons x xs => exact ⟨x, xs, rfl⟩
      have hnext : CycleIter.next ⟨l, l.drop j⟩ = (some x, ⟨l, xs⟩) := by
        rw [hdrop, CycleIter.next]
        simp [hxl]
      have hxs : xs = l.drop 1 := by rw [hxl]; rfl
      simp only [assignments, hnext, List.map_cons]
      rw [hxs, ih 1 (by rw [hxl]; simp)]
      simp only [List.length_cons]
      rw [List.range_succ_eq_map, List.map_cons, List.map_map]
      congr 1
      · have h0 : (j + 0) % l.length = 0 := by
          rw [Nat.add_zero, hjeq, Nat.mod_self]
        rw [h0, hxl]
        simp
      · refine List.map_congr_left ?_
        intro i _
        simp only [Function.comp_apply, Nat.succ_eq_add_one]
        have harith : (j + (i + 1)) % l.length = (1 + i) % l.length := by
          rw [hjeq, Nat.add_mod_left, Nat.add_comm]
        rw [harith]


theorem runTask_retry (env : Env) (m : ℕ) (ap : String × Option String) :
    (runTask env m ap).retry =
      get_airdrop_amount_with_retry ap.1 m ap.2 (env.fetch ap.1 ap.2) := by
  rcases hres : (get_airdrop_amount_with_retry ap.1 m ap.2 (env.fetch ap.1 ap.2)).result
    with e | a <;> simp [runTask, hres]

theorem runTask_address (env : Env) (m : ℕ) (ap : String × Option String) :
    (runTask env m ap).address = ap.1 := by
  rcases hres : (get_airdrop_amount_with_retry ap.1 m ap.2 (env.fetch ap.1 ap.2)).result
    with e | a <;> simp [runTask, hres]

theorem runTask_proxy (env : Env) (m : ℕ) (ap : String × Option String) :
    (runTask env m ap).proxy = ap.2 := by
  rcases hres : (get_airdrop_amount_with_retry ap.1 m ap.2 (env.fetch ap.1 ap.2)).result
    with e | a <;> simp [runTask, hres]

theorem runTask_lineAddress (env : Env) (m : ℕ) (ap : String × Option String) :
    (runTask env m ap).line.lineAddress = ap.1 := by
  rcases hres : (get_airdrop_amount_with_retry ap.1 m ap.2 (env.fetch ap.1 ap.2)).result
    with e | a <;> simp [runTask, hres, OutputLine.lineAddress]

theorem runTask_value_eq_finalAmount (env : Env) (m : ℕ)
    (ap : String × Option String) :
    (runTask env m ap).value = finalAmount (runTask env m ap) := by
  rcases hres : (get_airdrop_amount_with_retry ap.1 m ap.2 (env.fetch ap.1 ap.2)).result
    with e | a <;> simp [runTask, hres, finalAmount]

theorem runTask_line_cases (env : Env) (m : ℕ) (ap : String × Option String) :
    (∃ a, (runTask env m ap).line = .success ap.1 a ∧
      (runTask env m ap).retry.result = .ok a) ∨
    (∃ e, (runTask env m ap).line = .failure ap.1 e ∧
      (runTask env m ap).retry.result = .error e) := by
  rcases hres : (get_airdrop_amount_with_retry ap.1 m ap.2 (env.fetch ap.1 ap.2)).result
    with e | a
  · right; exact ⟨e, by simp [runTask, hres], by simp [runTask, hres]⟩
  · left; exact ⟨a, by simp [runTask, hres], by simp [runTask, hres]⟩

theorem main_ok (env : Env) (addrs : List String)
    (h : read_lines env.addressesFile = .ok addrs) :
    main env =
      { perAddress := (runBatch env addrs).map TaskResult.line,
        diagnostics := (runBatch env addrs).flatMap
          (fun r => r.retry.retryLog.map retryNotice),
        totalLine := some (totalOf (runBatch env addrs)),
        fetchCalls := (runBatch env addrs).map
          (fun r => (r.address, r.proxy, r.retry.attempts)),
        exitCode := 0 } := by
  unfold main
  rw [h]

theorem main_err (env : Env) (e : IOErr)
    (h : env.addressesFile = .error e) :
    main env =
      { perAddress := [],
        diagnostics := ["Error reading addresses file: " ++ e],
        totalLine := none, fetchCalls := [], exitCode := 0 } := by
  unfold main
  rw [show read_lines env.addressesFile = .error e from by rw [h]; rfl]

theorem runBatch_lineAddresses (env : Env) (addrs : List String) :
    (runBatch env addrs).map (fun t => t.line.lineAddress) = addrs := by
  unfold runBatch
  rw [List.map_map]
  have hcong : ∀ ap ∈ assignments addrs (cycle (loadProxies env)),
      ((fun t => t.line.lineAddress) ∘ runTask env MAX_RETRIES) ap = Prod.fst ap := by
    intro ap _
    simp [Function.comp, runTask_lineAddress]
  rw [List.map_congr_left hcong, assignments_fst]

theorem totalOf_eq_sum_finalAmounts (env : Env) (addrs : List String) :
    totalOf (runBatch env addrs) =
      ((runBatch env addrs).filterMap finalAmount).sum := by
  unfold totalOf
  congr 1
  refine List.filterMap_congr ?_
  intro t ht
  unfold runBatch at ht
  obtain ⟨ap, _, rfl⟩ := List.mem_map.mp ht
  exact runTask_value_eq_finalAmount env MAX_RETRIES ap

theorem filterMap_range_getElem (g : TaskResult → Option ℚ) :
    ∀ (l : List TaskResult),
      (List.range l.length).filterMap (fun i => (l[i]?).bind g) =
        l.filterMap g := by
  intro l
  induction l with
  | nil => rfl
  | cons x xs ih =>
    rw [List.length_cons, List.range_succ_eq_map, List.filterMap_cons,
      List.filterMap_map]
    have hshift : ∀ i, ((fun i => ((x :: xs)[i]?).bind g) ∘ Nat.succ) i =
        (fun i => (xs[i]?).bind g) i := by
      intro i
      simp
    rw [funext hshift]
    simp only [List.getElem?_cons_zero, Option.bind_some]
    cases hgx : g x with
    | none => simp [hgx, ih, List.filterMap_cons]
    | some a => simp [hgx, ih, List.filterMap_cons]

theorem retry_go_log_address (address : String) (max_retries : ℕ)
    (proxy : Option String) (env : ℕ → Except Err Response) :
    ∀ (n r : ℕ), max_retries - r ≤ n →
    ∀ en ∈ (get_airdrop_amount_with_retry_go address max_retries proxy env r).retryLog,
      en.2.1 = address := by
  intro n
  induction n with
  | zero =>
    intro r hn en hen
    cases hres : get_airdrop_amount (env r) with
    | ok a =>
      rw [retry_go_ok address max_retries proxy env r a hres] at hen
      simp at hen
    | error e =>
      rw [retry_go_err_last address max_retries proxy env r e hres (by omega)] at hen
      simp at hen
  | succ n ih =>
    intro r hn en hen
    cases hres : get_airdrop_amount (env r) with
    | ok a =>
      rw [retry_go_ok address max_retries proxy env r a hres] at hen
      simp at hen
    | error e =>
      by_cases hlt : r < max_retries
      · rw [retry_go_err_lt address max_retries proxy env r e hres hlt] at hen
        simp at hen
        rcases hen with hen | hen
        · simp [hen]
        · exact ih (r + 1) (by omega) en hen
      · rw [retry_go_err_last address max_retries proxy env r e hres hlt] at hen
        simp at hen

theorem runBatch_length (env : Env) (addrs : List String) :
    (runBatch env addrs).length = addrs.length := by
  unfold runBatch
  rw [List.length_map, assignments_length]

/-- Claim C5: for every structurally valid JSON response with a top-level
`data` array of records each carrying a numeric `amount`, the fetcher
returns the sum of all records' amounts; an empty `data` array yields `0.0`
(success, not an error); for records `[{amount: 1.5}, {amount: 2.25}]` the
result is exactly `3.75`. -/
theorem fetch_sums_data_amounts :
    (∀ ds : List Data,
      get_airdrop_amount (.ok ⟨ds⟩) = .ok ((ds.map Data.amount).sum)) ∧
    get_airdrop_amount (.ok ⟨[]⟩) = .ok 0 ∧
    get_airdrop_amount (.ok ⟨[⟨3/2⟩, ⟨9/4⟩]⟩) = .ok (15/4) := by
  refine ⟨?_, rfl, ?_⟩
  · intro ds
    cases ds with
    | nil => simp [get_airdrop_amount]
    | cons d rest => simp [get_airdrop_amount]
  · simp only [get_airdrop_amount, List.isEmpty_cons, List.map_cons,
      List.map_nil, List.sum_cons, List.sum_nil]
    norm_num

/-- Claim C8: if the address file cannot be opened or read, the program
prints only an error diagnostic, performs no fetches, prints no per-address
line and no total line, and terminates with success exit status (code 0). -/
theorem missing_address_file_graceful (env : Env) (e : IOErr)
    (h : env.addressesFile = .error e) :
    main env =
      { perAddress := [],
        diagnostics := ["Error reading addresses file: " ++ e],
        totalLine := none, fetchCalls := [], exitCode := 0 } :=
  main_err env e h

/-- Witness for C8 at a concrete environment whose address file is
missing. -/
theorem missing_address_file_graceful_witness :
    envNoAddrFile.addressesFile =
      .error "No such file or directory (os error 2)" ∧
    main envNoAddrFile =
      { perAddress := [],
        diagnostics := ["Error reading addresses file: " ++
          "No such file or directory (os error 2)"],
        totalLine := none, fetchCalls := [], exitCode := 0 } :=
  ⟨rfl, missing_address_file_graceful envNoAddrFile _ rfl⟩

/-- Claim C10: if the address file is readable but yields an empty address
list (no non-blank lines), the program performs no fetches, prints no
per-address lines and no diagnostics, prints exactly the total line with a
total of 0, and exits with success. -/
theorem empty_address_list_zero_total (env : Env)
    (h : read_lines env.addressesFile = .ok []) :
    main env =
      { perAddress := [], diagnostics := [],
        totalLine := some 0, fetchCalls := [], exitCode := 0 } := by
  rw [main_ok env [] h]
  simp [runBatch, assignments, totalOf]

/-- Witness for C10 at a concrete environment whose address file holds only
blank lines. -/
theorem empty_address_list_zero_total_witness :
    read_lines envBlankAddrFile.addressesFile = .ok [] ∧
    main envBlankAddrFile =
      { perAddress := [], diagnostics := [],
        totalLine := some 0, fetchCalls := [], exitCode := 0 } :=
  ⟨rfl, empty_address_list_zero_total envBlankAddrFile rfl⟩


/-- Claim C2: for every address, proxy and sequence of attempt outcomes,
the retry wrapper returns the amount of the first successful attempt
immediately — an upstream failing exactly `k ≤ max_retries` times then
succeeding yields success after exactly `k+1` attempts, `k` logged retry
notices naming this address, and `k` fixed 1-second delays; and if the
attempt failing is the `(max_retries+1)`-th (index `max_retries`, reached
after all earlier attempts failed), that last error is the final result. -/
theorem retry_policy_correct (address : String) (max_retries : ℕ)
    (proxy : Option String) (env : ℕ → Except Err Response) :
    (∀ k a, k ≤ max_retries →
      (∀ i, i < k → ∃ e, get_airdrop_amount (env i) = .error e) →
      get_airdrop_amount (env k) = .ok a →
      (get_airdrop_amount_with_retry address max_retries proxy env).result =
        .ok a ∧
      (get_airdrop_amount_with_retry address max_retries proxy env).attempts =
        k + 1 ∧
      (get_airdrop_amount_with_retry address max_retries proxy
        env).retryLog.length = k ∧
      (get_airdrop_amount_with_retry address max_retries proxy env).delays =
        List.replicate k 1 ∧
      (∀ en ∈ (get_airdrop_amount_with_retry address max_retries proxy
        env).retryLog, en.2.1 = address)) ∧
    (∀ e, (∀ i, i < max_retries → ∃ e', get_airdrop_amount (env i) = .error e') →
      get_airdrop_amount (env max_retries) = .error e →
      (get_airdrop_amount_with_retry address max_retries proxy env).result =
        .error e ∧
      (get_airdrop_amount_with_retry address max_retries proxy env).attempts =
        max_retries + 1) := by
  constructor
  · intro k a hk hfail hok
    have hf0 : ∀ i, i < k → ∃ e, get_airdrop_amount (env (0 + i)) = .error e := by
      intro i hi; simpa using hfail i hi
    have hok0 : get_airdrop_amount (env (0 + k)) = .ok a := by simpa using hok
    obtain ⟨h1, h2, h3, h4⟩ := retry_go_first_success address max_retries proxy
      env a k 0 (by omega) hf0 hok0
    refine ⟨h1, by simpa using h2, h3, h4, ?_⟩
    intro en hen
    exact retry_go_log_address address max_retries proxy env max_retries 0
      (by omega) en hen
  · intro e hfail hlast
    have herr : ∀ i, i ≤ max_retries →
        get_airdrop_amount (env i) =
          .error (if hi : i < max_retries then (hfail i hi).choose else e) := by
      intro i hi
      by_cases hlt : i < max_retries
      · rw [dif_pos hlt]
        exact (hfail i hlt).choose_spec
      · rw [dif_neg hlt]
        have hieq : i = max_retries := by omega
        rw [hieq]
        exact hlast
    obtain ⟨h1, h2, _, _⟩ := retry_go_all_fail address max_retries proxy env
      (fun i => if hi : i < max_retries then (hfail i hi).choose else e) herr
      max_retries 0 (by omega) (by omega)
    refine ⟨?_, h2⟩
    show (get_airdrop_amount_with_retry_go address max_retries proxy env 0).result =
      Except.error e
    rw [h1, dif_neg (lt_irrefl max_retries)]

/-- Witness for C2: an upstream that fails once then succeeds with amount 5
yields success after 2 attempts and 1 logged retry (budget 2). -/
theorem retry_policy_correct_witness :
    (1 : ℕ) ≤ 2 ∧
    get_airdrop_amount (fetchFailThenOk 1) = .ok 5 ∧
    (get_airdrop_amount_with_retry "w" 2 none fetchFailThenOk).result =
      .ok 5 ∧
    (get_airdrop_amount_with_retry "w" 2 none fetchFailThenOk).attempts = 2 ∧
    (get_airdrop_amount_with_retry "w" 2 none fetchFailThenOk).retryLog.length
      = 1 := by
  obtain ⟨hsucc, _⟩ := retry_policy_correct "w" 2 none fetchFailThenOk
  have hok : get_airdrop_amount (fetchFailThenOk 1) = .ok 5 := by
    simp [fetchFailThenOk, get_airdrop_amount]
  obtain ⟨h1, h2, h3, _, _⟩ := hsucc 1 5 (by omega)
    (fun i hi => ⟨"connection reset", by
      have h0 : i = 0 := by omega
      rw [h0]; rfl⟩) hok
  exact ⟨by omega, hok, h1, h2, h3⟩

/-- Claim C3: the retry wrapper terminates (it is a total function of the
environment), makes at most `max_retries + 1` fetch attempts, and on the
all-failures path makes exactly `max_retries + 1` attempts and ends in the
last attempt's error. -/
theorem retry_terminates_within_budget (address : String) (max_retries : ℕ)
    (proxy : Option String) (env : ℕ → Except Err Response) :
    (get_airdrop_amount_with_retry address max_retries proxy env).attempts ≤
      max_retries + 1 ∧
    ((∀ i, i ≤ max_retries → ∃ e, get_airdrop_amount (env i) = .error e) →
      (get_airdrop_amount_with_retry address max_retries proxy env).attempts =
        max_retries + 1 ∧
      ∃ e, get_airdrop_amount (env max_retries) = .error e ∧
        (get_airdrop_amount_with_retry address max_retries proxy env).result =
          .error e) := by
  constructor
  · exact retry_go_attempts_le address max_retries proxy env max_retries 0
      (by omega) (by omega)
  · intro hfail
    have herr : ∀ i, i ≤ max_retries →
        get_airdrop_amount (env i) =
          .error (if hi : i ≤ max_retries then (hfail i hi).choose
            else "unreachable") := by
      intro i hi
      rw [dif_pos hi]
      exact (hfail i hi).choose_spec
    obtain ⟨h1, h2, _, _⟩ := retry_go_all_fail address max_retries proxy env
      (fun i => if hi : i ≤ max_retries then (hfail i hi).choose
        else "unreachable") herr max_retries 0 (by omega) (by omega)
    refine ⟨h2, (hfail max_retries le_rfl).choose, ?_, ?_⟩
    · exact (hfail max_retries le_rfl).choose_spec
    · show (get_airdrop_amount_with_retry_go address max_retries proxy env 0).result =
        Except.error (hfail max_retries le_rfl).choose
      rw [h1, dif_pos (le_refl max_retries)]

/-- Witness for C3: an upstream that fails on every attempt, with budget 2,
makes exactly 3 attempts and ends in the last error. -/
theorem retry_terminates_within_budget_witness :
    (get_airdrop_amount_with_retry "w" 2 none fetchAllFail).attempts ≤ 3 ∧
    (get_airdrop_amount_with_retry "w" 2 none fetchAllFail).attempts = 3 ∧
    (get_airdrop_amount_with_retry "w" 2 none fetchAllFail).result =
      .error "connection refused" := by
  obtain ⟨hle, hall⟩ := retry_terminates_within_budget "w" 2 none fetchAllFail
  obtain ⟨h2, e, he, hres⟩ := hall (fun i _ => ⟨"connection refused", rfl⟩)
  have heq : e = "connection refused" := by
    have hinj : (Except.error e : Except Err ℚ) = .error "connection refused" := by
      rw [← he]; rfl
    simpa using hinj
  rw [heq] at hres
  exact ⟨hle, h2, hres⟩


theorem read_lines_error_inv (f : Except IOErr (List String)) (e : IOErr)
    (h : read_lines f = .error e) : f = .error e := by
  cases f with
  | error e2 => exact h
  | ok l => simp [read_lines] at h

/-- Claim C1: for every address list and every assignment of per-address
fetch outcomes, the printed total equals the sum of the amounts of exactly
those addresses whose retry sequence ended in success — addresses whose
final outcome is an error are excluded by the filter, not counted as zero —
and they do not abort the run: the total line is printed and every address
still gets its own output line. -/
theorem total_sums_exactly_successes (env : Env) (addrs : List String)
    (h : read_lines env.addressesFile = .ok addrs) :
    (main env).totalLine =
      some (((runBatch env addrs).filterMap finalAmount).sum) ∧
    (main env).perAddress.length = addrs.length := by
  rw [main_ok env addrs h]
  refine ⟨?_, ?_⟩
  · show some (totalOf (runBatch env addrs)) = _
    rw [totalOf_eq_sum_finalAmounts]
  · show ((runBatch env addrs).map TaskResult.line).length = _
    rw [List.length_map, runBatch_length]

/-- Witness for C1: a concrete run with one always-succeeding and one
always-failing address. -/
theorem total_sums_exactly_successes_witness :
    read_lines envMixed.addressesFile = .ok ["good", "bad"] ∧
    (main envMixed).totalLine =
      some (((runBatch envMixed ["good", "bad"]).filterMap finalAmount).sum) ∧
    (main envMixed).perAddress.length = 2 := by
  have h := total_sums_exactly_successes envMixed ["good", "bad"] rfl
  exact ⟨rfl, h.1, h.2⟩

/-- Claim C6: for every address in the input list, exactly one output line
is produced for that address — the per-address lines, in order, name
exactly the input addresses, and each line is either the success line or
the failure line for its address. -/
theorem one_line_per_address (env : Env) (addrs : List String)
    (h : read_lines env.addressesFile = .ok addrs) :
    (main env).perAddress.map OutputLine.lineAddress = addrs ∧
    ∀ line ∈ (main env).perAddress,
      (∃ a, line = .success line.lineAddress a) ∨
      (∃ e, line = .failure line.lineAddress e) := by
  rw [main_ok env addrs h]
  constructor
  · show ((runBatch env addrs).map TaskResult.line).map OutputLine.lineAddress
      = addrs
    rw [List.map_map]
    simpa [Function.comp] using runBatch_lineAddresses env addrs
  · intro line hline
    show (∃ a, line = .success line.lineAddress a) ∨
      (∃ e, line = .failure line.lineAddress e)
    have hline' : line ∈ (runBatch env addrs).map TaskResult.line := hline
    obtain ⟨t, ht, rfl⟩ := List.mem_map.mp hline'
    unfold runBatch at ht
    obtain ⟨ap, hap, rfl⟩ := List.mem_map.mp ht
    rcases runTask_line_cases env MAX_RETRIES ap with ⟨a, hcase, _⟩ | ⟨e, hcase, _⟩
    · left
      exact ⟨a, by rw [hcase]; rfl⟩
    · right
      exact ⟨e, by rw [hcase]; rfl⟩

/-- Witness for C6: the concrete mixed run produces one line per address,
naming the two input addresses in order. -/
theorem one_line_per_address_witness :
    read_lines envMixed.addressesFile = .ok ["good", "bad"] ∧
    (main envMixed).perAddress.map OutputLine.lineAddress =
      ["good", "bad"] :=
  ⟨rfl, (one_line_per_address envMixed ["good", "bad"] rfl).1⟩


/-- Claim C4: proxy assignment is a deterministic function of position
fixed before any concurrent work starts: with proxies `P ≠ []` the address
at 0-based index `i` is assigned proxy `P[i % P.length]`, with no proxies
every address is assigned `none`; the (address, proxy) pairs the tasks own
are exactly the pre-computed assignments; and every fetch attempt of a task
uses that task's single assigned proxy. -/
theorem proxy_assignment_round_robin (env : Env) (addrs : List String) :
    ((assignments addrs (cycle (loadProxies env))).map Prod.snd =
      (List.range addrs.length).map (fun i =>
        if (loadProxies env).isEmpty then none
        else (loadProxies env)[i % (loadProxies env).length]?)) ∧
    ((runBatch env addrs).map (fun t => (t.address, t.proxy)) =
      assignments addrs (cycle (loadProxies env))) ∧
    (∀ t ∈ runBatch env addrs, ∀ c ∈ t.retry.calls, c.2 = t.proxy) := by
  refine ⟨?_, ?_, ?_⟩
  · cases hl : loadProxies env with
    | nil =>
      rw [show cycle ([] : List String) = (⟨[], []⟩ : CycleIter) from rfl]
      rw [assignments_snd_nil]
      simp
    | cons x xs =>
      rw [show cycle (x :: xs) = (⟨x :: xs, (x :: xs).drop 0⟩ : CycleIter)
        from rfl]
      rw [assignments_snd (x :: xs) (by simp) addrs 0 (by omega)]
      simp only [List.isEmpty_cons, Bool.false_eq_true, if_false]
      refine List.map_congr_left ?_
      intro i _
      rw [Nat.zero_add]
  · unfold runBatch
    rw [List.map_map]
    have hcong : ∀ ap ∈ assignments addrs (cycle (loadProxies env)),
        ((fun t => (t.address, t.proxy)) ∘ runTask env MAX_RETRIES) ap =
          id ap := by
      intro ap _
      simp [Function.comp, runTask_address, runTask_proxy]
    rw [List.map_congr_left hcong, List.map_id]
  · intro t ht c hc
    unfold runBatch at ht
    obtain ⟨ap, hap, rfl⟩ := List.mem_map.mp ht
    rw [runTask_proxy]
    rw [runTask_retry] at hc
    exact retry_go_calls_proxy ap.1 MAX_RETRIES ap.2 (env.fetch ap.1 ap.2)
      MAX_RETRIES 0 (by omega) c hc

/-- Witness for C4: three addresses over two proxies get proxies p1, p2, p1
in order, and the first task's only fetch attempt carries its assigned
proxy p1. -/
theorem proxy_assignment_round_robin_witness :
    ((assignments ["a1", "a2", "a3"] (cycle (loadProxies envTwoProxies))).map
      Prod.snd = [some "p1", some "p2", some "p1"]) ∧
    runTask envTwoProxies MAX_RETRIES ("a1", some "p1") ∈
      runBatch envTwoProxies ["a1", "a2", "a3"] ∧
    ((0 : ℕ), some "p1") ∈
      (runTask envTwoProxies MAX_RETRIES ("a1", some "p1")).retry.calls ∧
    ((0 : ℕ), some "p1").2 =
      (runTask envTwoProxies MAX_RETRIES ("a1", some "p1")).proxy := by
  obtain ⟨h1, _, h3⟩ :=
    proxy_assignment_round_robin envTwoProxies ["a1", "a2", "a3"]
  have hmem : runTask envTwoProxies MAX_RETRIES ("a1", some "p1") ∈
      runBatch envTwoProxies ["a1", "a2", "a3"] := by
    unfold runBatch
    rw [show assignments ["a1", "a2", "a3"] (cycle (loadProxies envTwoProxies))
      = [("a1", some "p1"), ("a2", some "p2"), ("a3", some "p1")] from rfl]
    rw [List.map_cons]
    exact List.mem_cons_self _ _
  have hok : get_airdrop_amount
      (envTwoProxies.fetch "a1" (some "p1") 0) = .ok 2 := by
    simp [envTwoProxies, get_airdrop_amount]
  have hcalls : (runTask envTwoProxies MAX_RETRIES
      ("a1", some "p1")).retry.calls = [((0 : ℕ), some "p1")] := by
    rw [runTask_retry]
    show (get_airdrop_amount_with_retry_go "a1" MAX_RETRIES (some "p1")
      (envTwoProxies.fetch "a1" (some "p1")) 0).calls = _
    rw [retry_go_ok "a1" MAX_RETRIES (some "p1")
      (envTwoProxies.fetch "a1" (some "p1")) 0 2 hok]
  have hcmem : ((0 : ℕ), some "p1") ∈
      (runTask envTwoProxies MAX_RETRIES ("a1", some "p1")).retry.calls := by
    rw [hcalls]
    exact List.mem_singleton.mpr rfl
  refine ⟨?_, hmem, hcmem, h3 _ hmem _ hcmem⟩
  rw [h1]
  rfl


theorem mainSched_ok (env : Env) (addrs : List String) (order : List ℕ)
    (h : read_lines env.addressesFile = .ok addrs) :
    mainSched env order =
      { perAddress := order.filterMap
          (fun i => ((runBatch env addrs)[i]?).map TaskResult.line),
        diagnostics := (runBatch env addrs).flatMap
          (fun r => r.retry.retryLog.map retryNotice),
        totalLine := some (totalOf (runBatch env addrs)),
        fetchCalls := (runBatch env addrs).map
          (fun r => (r.address, r.proxy, r.retry.attempts)),
        exitCode := 0 } := by
  unfold mainSched
  rw [h]

theorem mainSched_err (env : Env) (e : IOErr) (order : List ℕ)
    (h : env.addressesFile = .error e) :
    mainSched env order =
      { perAddress := [],
        diagnostics := ["Error reading addresses file: " ++ e],
        totalLine := none, fetchCalls := [], exitCode := 0 } := by
  unfold mainSched
  rw [show read_lines env.addressesFile = .error e from by rw [h]; rfl]

/-- Claim C7: the printed total is a deterministic function of the
per-address final outcomes alone — for any two completion orders of the
same run the printed total is identical (and the per-address lines are a
permutation of each other); moreover the total printed equals the sum of
the successful amounts taken in whatever order the tasks completed. -/
theorem total_invariant_completion_order (env : Env) (o1 o2 : List ℕ)
    (hperm : o1.Perm o2) :
    (mainSched env o1).totalLine = (mainSched env o2).totalLine ∧
    ((mainSched env o1).perAddress).Perm ((mainSched env o2).perAddress) ∧
    (∀ addrs, read_lines env.addressesFile = .ok addrs →
      o1.Perm (List.range (runBatch env addrs).length) →
      (mainSched env o1).totalLine =
        some ((o1.filterMap
          (fun i => ((runBatch env addrs)[i]?).bind finalAmount)).sum)) := by
  refine ⟨?_, ?_, ?_⟩
  · rcases hrl : read_lines env.addressesFile with e | addrs
    · rw [mainSched_err env e o1 (read_lines_error_inv _ e hrl),
        mainSched_err env e o2 (read_lines_error_inv _ e hrl)]
    · rw [mainSched_ok env addrs o1 hrl, mainSched_ok env addrs o2 hrl]
  · rcases hrl : read_lines env.addressesFile with e | addrs
    · rw [mainSched_err env e o1 (read_lines_error_inv _ e hrl),
        mainSched_err env e o2 (read_lines_error_inv _ e hrl)]
    · rw [mainSched_ok env addrs o1 hrl, mainSched_ok env addrs o2 hrl]
      exact hperm.filterMap _
  · intro addrs hrl hrange
    rw [mainSched_ok env addrs o1 hrl]
    show some (totalOf (runBatch env addrs)) = _
    congr 1
    rw [totalOf_eq_sum_finalAmounts env addrs]
    rw [← filterMap_range_getElem finalAmount (runBatch env addrs)]
    exact (hrange.filterMap _).sum_eq.symm

/-- Witness for C7: the mixed run with completion orders [0, 1] and [1, 0]
prints the same total either way, equal to the completion-ordered sum of
successes. -/
theorem total_invariant_completion_order_witness :
    ([0, 1] : List ℕ).Perm [1, 0] ∧
    read_lines envMixed.addressesFile = .ok ["good", "bad"] ∧
    (mainSched envMixed [0, 1]).totalLine =
      (mainSched envMixed [1, 0]).totalLine ∧
    ((mainSched envMixed [0, 1]).perAddress).Perm
      ((mainSched envMixed [1, 0]).perAddress) ∧
    (mainSched envMixed [0, 1]).totalLine =
      some ((([0, 1] : List ℕ).filterMap
        (fun i => ((runBatch envMixed ["good", "bad"])[i]?).bind
          finalAmount)).sum) := by
  have hperm : ([0, 1] : List ℕ).Perm [1, 0] := by decide
  obtain ⟨h1, h2, h3⟩ :=
    total_invariant_completion_order envMixed [0, 1] [1, 0] hperm
  have hrange : ([0, 1] : List ℕ).Perm
      (List.range (runBatch envMixed ["good", "bad"]).length) := by
    rw [runBatch_length]
    decide
  exact ⟨hperm, rfl, h1, h2, h3 ["good", "bad"] rfl hrange⟩

/-- Claim C9: any failure to open or read the proxy file, and likewise a
proxy file with no non-blank lines, results in an empty proxy list: the run
is identical to one with an empty proxy file, every fetch call carries no
proxy, and when the address file is readable the run still proceeds to a
printed total — proxy-file failure is never fatal. -/
theorem proxy_failure_degrades (env : Env)
    (h : (∃ e, env.proxiesFile = .error e) ∨
      read_lines env.proxiesFile = .ok []) :
    loadProxies env = [] ∧
    main env = main { env with proxiesFile := .ok [] } ∧
    (∀ c ∈ (main env).fetchCalls, c.2.1 = none) ∧
    (∀ addrs, read_lines env.addressesFile = .ok addrs →
      (main env).totalLine = some (totalOf (runBatch env addrs))) := by
  have hl : loadProxies env = [] := by
    rcases h with ⟨e, he⟩ | hok
    · unfold loadProxies
      rw [show read_lines env.proxiesFile = .error e from by rw [he]; rfl]
    · unfold loadProxies
      rw [hok]
      rfl
  have hrb : ∀ addrs, runBatch env addrs =
      runBatch { env with proxiesFile := .ok [] } addrs := by
    intro addrs
    unfold runBatch
    rw [hl]
    rfl
  refine ⟨hl, ?_, ?_, ?_⟩
  · rcases hrl : read_lines env.addressesFile with e | addrs
    · rw [main_err env e (read_lines_error_inv _ e hrl),
        main_err { env with proxiesFile := .ok [] } e
          (read_lines_error_inv _ e hrl)]
    · rw [main_ok env addrs hrl,
        main_ok { env with proxiesFile := .ok [] } addrs hrl,
        hrb addrs]
  · intro c hc
    rcases hrl : read_lines env.addressesFile with e | addrs
    · rw [main_err env e (read_lines_error_inv _ e hrl)] at hc
      simp at hc
    · rw [main_ok env addrs hrl] at hc
      have hc' : c ∈ (runBatch env addrs).map
          (fun r => (r.address, r.proxy, r.retry.attempts)) := hc
      obtain ⟨t, ht, rfl⟩ := List.mem_map.mp hc'
      show t.proxy = none
      unfold runBatch at ht
      obtain ⟨ap, hap, rfl⟩ := List.mem_map.mp ht
      rw [runTask_proxy]
      rw [hl, show cycle ([] : List String) = (⟨[], []⟩ : CycleIter) from rfl]
        at hap
      have hmem : ap.2 ∈ (assignments addrs (⟨[], []⟩ : CycleIter)).map
          Prod.snd := List.mem_map_of_mem _ hap
      rw [assignments_snd_nil] at hmem
      exact List.eq_of_mem_replicate hmem
  · intro addrs hrl
    rw [main_ok env addrs hrl]

/-- Witness for C9: the mixed run's proxy file is unreadable, yet the run
degrades to no proxies and still prints a total. -/
theorem proxy_failure_degrades_witness :
    envMixed.proxiesFile = .error "no proxies file" ∧
    loadProxies envMixed = [] ∧
    main envMixed = main { envMixed with proxiesFile := .ok [] } ∧
    (main envMixed).totalLine =
      some (totalOf (runBatch envMixed ["good", "bad"])) := by
  obtain ⟨h1, h2, _, h4⟩ := proxy_failure_degrades envMixed
    (.inl ⟨"no proxies file", rfl⟩)
  exact ⟨rfl, h1, h2, h4 ["good", "bad"] rfl⟩

end Kiloex
